import Mathlib

/-!
# kv-wsrelay: the connection hub and the per-connection protocol handler

A shallow embedding of `src/kv-wsrelay/main.go`.

* A `*Client` is an address (`ClientRef`); the process memory maps every address to the
  `Client` record stored there, whose `send` field is the buffered channel created by
  `make(chan []byte, 256)` in `wsHandler`.
* A Go channel is its buffer (head of the list is the next payload received) and its
  closed flag.  Sending on a closed channel and closing a closed channel are run-time
  panics in Go; the operations return `none` there.
* `h.clients` (a `map[*Client]bool`) is the list of its keys.  A Go map never holds a key
  twice, which is the `Nodup` part of `HubState.WF`; the order of the list is the order in
  which `range h.clients` visits the keys, so a statement about every state is a statement
  about every iteration order.
-/

namespace KvWsRelay

/-! ## Data model -/

/-- A payload, `[]byte` in the source: a list of byte values. -/
abbrev Payload := List Nat

/-- The address of a `Client` value (`*Client` in the source). -/
abbrev ClientRef := Nat

/-- A buffered Go channel of payloads: pending payloads, oldest first, and the closed flag. -/
structure Chan where
  buf : List Payload
  closed : Bool
deriving DecidableEq, Repr

/-- The capacity given to every outbound queue: `make(chan []byte, 256)` in `wsHandler`. -/
def sendQueueCap : Nat := 256

/-- The `Client` struct: identity, colour and outbound queue (the transport handle `conn`
plays no part in the hub or in message handling). -/
structure Client where
  id : String
  color : String
  send : Chan
deriving DecidableEq, Repr

/-- The `broadcastItem` struct. -/
structure broadcastItem where
  sender : ClientRef
  payload : Payload
deriving DecidableEq, Repr

/-- The state the hub goroutine works on: the keys of `h.clients` and the memory holding
the `Client` records the keys point to. -/
structure HubState where
  clients : List ClientRef
  heap : ClientRef → Client

/-- Store `ch` into the `send` field of the client at address `c`. -/
def HubState.setSend (s : HubState) (c : ClientRef) (ch : Chan) : HubState :=
  { s with heap := fun x => if x = c then { s.heap x with send := ch } else s.heap x }

/-- Go's `delete(h.clients, c)`. -/
def HubState.deleteClient (s : HubState) (c : ClientRef) : HubState :=
  { s with clients := s.clients.filter (fun x => x ≠ c) }

/-- Go's `close(ch)`: closing a closed channel panics. -/
def closeChan (ch : Chan) : Option Chan :=
  if ch.closed then none else some { ch with closed := true }

/-- The three results of `select { case ch <- p: ... default: ... }`. -/
inductive TrySend where
  | sent (ch : Chan)
  | full
  | panicked
deriving DecidableEq, Repr

/-- Go's non-blocking send `select { case ch <- p: default: }` on a channel of capacity
`sendQueueCap`: a closed channel panics, a channel with room takes the payload at its
tail, a full one selects `default`. -/
def trySend (ch : Chan) (p : Payload) : TrySend :=
  if ch.closed then .panicked
  else if ch.buf.length < sendQueueCap then .sent { ch with buf := ch.buf ++ [p] }
  else .full

/-- The fresh hub of `newHub`, over a memory `heap`. -/
def newHub (heap : ClientRef → Client) : HubState :=
  { clients := [], heap := heap }

/-! ## Hub.run -/

/-- The register case `case c := <-h.register`: `h.clients[c] = true`. -/
def Hub.register (s : HubState) (c : ClientRef) : HubState :=
  if c ∈ s.clients then s else { s with clients := c :: s.clients }

/-- The unregister case `case c := <-h.unregister`: delete and close if present. -/
def Hub.unregister (s : HubState) (c : ClientRef) : Option HubState :=
  if c ∈ s.clients then
    (closeChan (s.heap c).send).map (fun ch => (s.deleteClient c).setSend c ch)
  else some s

/-- One iteration of the body of `for c := range h.clients` in the broadcast case. -/
def Hub.broadcastOne (msg : broadcastItem) (s : HubState) (c : ClientRef) : Option HubState :=
  if c = msg.sender then some s
  else
    match trySend (s.heap c).send msg.payload with
    | .sent ch => some (s.setSend c ch)
    | .full =>
      (closeChan (s.heap c).send).map (fun ch => (s.deleteClient c).setSend c ch)
    | .panicked => none

/-- The loop `for c := range h.clients` over the keys still to visit.  Only the key being
visited is ever deleted, so the keys visited are the keys present when the loop starts. -/
def Hub.broadcastLoop (msg : broadcastItem) : List ClientRef → HubState → Option HubState
  | [], s => some s
  | c :: rest, s =>
    match Hub.broadcastOne msg s c with
    | some s1 => Hub.broadcastLoop msg rest s1
    | none => none

/-- The broadcast case `case msg := <-h.broadcast`. -/
def Hub.broadcast (s : HubState) (msg : broadcastItem) : Option HubState :=
  Hub.broadcastLoop msg s.clients s

/-- What the hub goroutine receives in one iteration of its `select`. -/
inductive HubEvent where
  | register (c : ClientRef)
  | unregister (c : ClientRef)
  | broadcast (msg : broadcastItem)
deriving DecidableEq, Repr

/-- One iteration of the `for { select { ... } }` of `Hub.run`. -/
def Hub.step (s : HubState) : HubEvent → Option HubState
  | .register c => some (Hub.register s c)
  | .unregister c => Hub.unregister s c
  | .broadcast msg => Hub.broadcast s msg

/-- The loop of `Hub.run` over the sequence of events its `select` receives; `none` is a
panic. -/
def Hub.run : HubState → List HubEvent → Option HubState
  | s, [] => some s
  | s, e :: es =>
    match Hub.step s e with
    | some s1 => Hub.run s1 es
    | none => none

/-- The hub invariant: `h.clients` holds each key once (it is a map) and every registered
client's outbound queue is open. -/
def HubState.WF (s : HubState) : Prop :=
  s.clients.Nodup ∧ ∀ c ∈ s.clients, (s.heap c).send.closed = false

instance (s : HubState) : Decidable s.WF := by
  unfold HubState.WF; infer_instance

/-- The outbound queue of `c` after a broadcast of `msg` has visited it. -/
def deliveredSend (msg : broadcastItem) (ch : Chan) : Chan :=
  if ch.buf.length < sendQueueCap then { ch with buf := ch.buf ++ [msg.payload] }
  else { ch with closed := true }

/-- Whether a broadcast of `msg` that visits the keys `ks` evicts `c`. -/
def evicts (msg : broadcastItem) (ks : List ClientRef) (s : HubState) (c : ClientRef) : Bool :=
  decide (c ∈ ks) && decide (c ≠ msg.sender) &&
    decide (sendQueueCap ≤ (s.heap c).send.buf.length)

/-! ## Registration and the handler's direct sends -/

/-- The connections a sequence of hub events registers, in order. -/
def registrations : List HubEvent → List ClientRef
  | [] => []
  | .register c :: es => c :: registrations es
  | .unregister _ :: es => registrations es
  | .broadcast _ :: es => registrations es

/-- The three results of the blocking send `ch <- p`. -/
inductive Send where
  | sent (ch : Chan)
  | blocked
  | panicked
deriving DecidableEq, Repr

/-- Go's blocking send `ch <- p` on a channel of capacity `sendQueueCap`, at the moment it
is attempted: a closed channel panics, a channel with room takes the payload at its tail,
a full one parks the sending goroutine. -/
def chanSend (ch : Chan) (p : Payload) : Send :=
  if ch.closed then .panicked
  else if ch.buf.length < sendQueueCap then .sent { ch with buf := ch.buf ++ [p] }
  else .blocked

/-- A step of the process: one iteration of the hub's `select`, or a connection handler's
direct send `client.send <- payload` (lines 339 and 361 of `wsHandler`). -/
inductive Step where
  | hub (e : HubEvent)
  | handlerSend (c : ClientRef) (p : Payload)
deriving DecidableEq, Repr

/-- One step of the process; `none` when the hub panics or when the handler's send does
not complete (it panics, or parks on a full queue). -/
def System.step (s : HubState) : Step → Option HubState
  | .hub e => Hub.step s e
  | .handlerSend c p =>
    match chanSend (s.heap c).send p with
    | .sent ch => some (s.setSend c ch)
    | .blocked => none
    | .panicked => none

/-- A sequence of steps of the process. -/
def System.run : HubState → List Step → Option HubState
  | s, [] => some s
  | s, st :: rest =>
    match System.step s st with
    | some s1 => System.run s1 rest
    | none => none

/-- The bootstrap of `wsHandler` for the client at `c` (lines 333-363) interleaved with the
hub: `h.register <- client`, the hub steps `evs1` taken before the welcome is sent, the
welcome send (skipped when `json.Marshal` failed: `welcome = none`), the hub steps `evs2`
taken before the snapshot is sent, the snapshot send (skipped when `SMembers` or
`json.Marshal` failed: `snap = none`).  The writer goroutine is started only afterwards,
so nothing is taken from the queue of `c` meanwhile. -/
def bootstrapSteps (c : ClientRef) (welcome snap : Option Payload)
    (evs1 evs2 : List HubEvent) : List Step :=
  [Step.hub (.register c)] ++ evs1.map Step.hub ++ (welcome.map (Step.handlerSend c)).toList
    ++ evs2.map Step.hub ++ (snap.map (Step.handlerSend c)).toList

/-- The state after the bootstrap of `wsHandler` for `c`, in the interleaving given by
`evs1` and `evs2`. -/
def wsHandlerBootstrap (s : HubState) (c : ClientRef) (welcome snap : Option Payload)
    (evs1 evs2 : List HubEvent) : Option HubState :=
  System.run s (bootstrapSteps c welcome snap evs1 evs2)

/-- The payloads a sequence of steps puts on the queue of a registered `c` that has room:
the broadcasts of other senders and the handler's direct sends to `c`. -/
def enqueuedOn (c : ClientRef) : List Step → List Payload
  | [] => []
  | .hub (.broadcast msg) :: rest =>
    if c = msg.sender then enqueuedOn c rest else msg.payload :: enqueuedOn c rest
  | .hub (.register _) :: rest => enqueuedOn c rest
  | .hub (.unregister _) :: rest => enqueuedOn c rest
  | .handlerSend d p :: rest =>
    if d = c then p :: enqueuedOn c rest else enqueuedOn c rest

/-- The hub events among the steps of the process. -/
def hubEvents : List Step → List HubEvent
  | [] => []
  | .hub e :: rest => e :: hubEvents rest
  | .handlerSend _ _ :: rest => hubEvents rest

/-- The payloads of the broadcasts among hub events whose sender is not `c`. -/
def broadcastPayloads (c : ClientRef) (evs : List HubEvent) : List Payload :=
  enqueuedOn c (evs.map Step.hub)

/-! ## Strings -/

/-- Go's `unicode.IsSpace`: the Latin-1 spaces `\t \n \v \f \r`, space, U+0085, U+00A0,
and the other code points with the Unicode White_Space property. -/
def isSpace (r : Char) : Bool :=
  let n := r.toNat
  (0x09 ≤ n && n ≤ 0x0D) || n == 0x20 || n == 0x85 || n == 0xA0 || n == 0x1680 ||
    (0x2000 ≤ n && n ≤ 0x200A) || n == 0x2028 || n == 0x2029 || n == 0x202F ||
    n == 0x205F || n == 0x3000

/-- Go's `strings.TrimSpace` on a valid UTF-8 string: leading and trailing `isSpace` runes
removed. -/
def trimSpace (s : String) : String :=
  ⟨((s.data.dropWhile isSpace).reverse.dropWhile isSpace).reverse⟩

/-- Go's `unicode.ToLower` on one rune: `A`..`Z` move to `a`..`z`, the other ASCII runes
stay, the rest go through the case table. -/
def toLowerRune (unicodeLower : Char → Char) (r : Char) : Char :=
  if r.toNat < 0x80 then
    (if 0x41 ≤ r.toNat ∧ r.toNat ≤ 0x5A then Char.ofNat (r.toNat + 32) else r)
  else unicodeLower r

/-- Go's `strings.ToLower` on a valid UTF-8 string. -/
def toLower (unicodeLower : Char → Char) (s : String) : String :=
  ⟨s.data.map (toLowerRune unicodeLower)⟩

/-! ## Wire messages and the presence store -/

/-- The `IncomingMessage` struct (`Type_` is the Go field `Type`). -/
structure IncomingMessage where
  Type_ : String
  UserID : String
  LandmarkKey : String
deriving DecidableEq, Repr

/-- The `SelectionBroadcast` struct. -/
structure SelectionBroadcast where
  Type_ : String
  UserID : String
  LandmarkKey : String
  Color : String
deriving DecidableEq, Repr

/-- The `SnapshotSelection` struct. -/
structure SnapshotSelection where
  UserID : String
  LandmarkKey : String
  Color : String
deriving DecidableEq, Repr

/-- The `SnapshotMessage` struct. -/
structure SnapshotMessage where
  Type_ : String
  Selections : List SnapshotSelection
deriving DecidableEq, Repr

/-- A field value handed to `HSet`: a string, or the `int64` of `time.Now().Unix()`. -/
inductive StoreVal where
  | str (s : String)
  | int (n : Int)
deriving DecidableEq, Repr

/-- A mutating call on the presence store made by `reader`. -/
inductive StoreCall where
  | hset (key : String) (fields : List (String × StoreVal))
  | hdel (key : String) (field : String)
deriving DecidableEq, Repr

/-- What `reader` does to the outside, in order: a presence-store call, or
`h.broadcast <- item`. -/
inductive Action where
  | store (call : StoreCall)
  | submit (item : broadcastItem)
deriving DecidableEq, Repr

/-- What the handlers take from outside the repository: the case table of Go's
`unicode.ToLower` on runes past ASCII, and `json.Marshal` on a `SelectionBroadcast`
(`none` for `err != nil`). -/
structure Env where
  unicodeLower : Char → Char
  marshal : SelectionBroadcast → Option Payload

/-- The key `fmt.Sprintf("kv:users:%s", id)`. -/
def userKey (id : String) : String := "kv:users:" ++ id

/-! ## reader -/

/-- The submission that ends both cases: `json.Marshal(out)` and, when `err == nil`,
`h.broadcast <- broadcastItem` with `sender: c` and the payload. -/
def submitBroadcast (env : Env) (self : ClientRef)
    (out : SelectionBroadcast) : List Action :=
  match env.marshal out with
  | some payload => [.submit { sender := self, payload := payload }]
  | none => []

/-- The value `out` built in the select case from the trimmed key `lk`. -/
def selectionOut (c : Client) (lk : String) : SelectionBroadcast :=
  { Type_ := "selection", UserID := c.id, LandmarkKey := lk, Color := c.color }

/-- The value `out` built in the deselect case from the trimmed key `lk`. -/
def deselectionOut (c : Client) (lk : String) : SelectionBroadcast :=
  { Type_ := "deselection", UserID := c.id, LandmarkKey := lk, Color := c.color }

/-- The body of `case "select", "selection":` for the client `c` stored at address `self`;
`now` is `time.Now().Unix()`. -/
def handleSelect (env : Env) (self : ClientRef) (c : Client) (now : Int)
    (msg : IncomingMessage) : List Action :=
  let key := userKey c.id
  let lk := trimSpace msg.LandmarkKey
  if lk = "" then []
  else
    Action.store (.hset key [("landmarkKey", .str lk), ("lastUpdated", .int now)]) ::
      submitBroadcast env self (selectionOut c lk)

/-- The body of `case "deselect", "deselection":`. -/
def handleDeselect (env : Env) (self : ClientRef) (c : Client) (now : Int)
    (msg : IncomingMessage) : List Action :=
  let key := userKey c.id
  let lk := trimSpace msg.LandmarkKey
  Action.store (.hdel key "landmarkKey") ::
    Action.store (.hset key [("lastUpdated", .int now)]) ::
      submitBroadcast env self (deselectionOut c lk)

/-- The `switch strings.ToLower(in.Type)` of `reader`. -/
def handleMessage (env : Env) (self : ClientRef) (c : Client) (now : Int)
    (msg : IncomingMessage) : List Action :=
  let t := toLower env.unicodeLower msg.Type_
  if t = "select" ∨ t = "selection" then handleSelect env self c now msg
  else if t = "deselect" ∨ t = "deselection" then handleDeselect env self c now msg
  else []

/-- What one `c.conn.ReadMessage()` followed by `json.Unmarshal` yields: a read error, or a
message read at time `now` whose parse failed (`none`) or gave an `IncomingMessage`. -/
inductive ReadResult where
  | error
  | message (now : Int) (parsed : Option IncomingMessage)
deriving DecidableEq, Repr

/-- The `for` loop of `reader` over what the transport delivers: it returns at the first
read error, skips a message that does not parse, and handles the others in order. -/
def reader (env : Env) (self : ClientRef) (c : Client) :
    List ReadResult → List Action
  | [] => []
  | .error :: _ => []
  | .message _ none :: rest => reader env self c rest
  | .message now (some msg) :: rest => handleMessage env self c now msg ++ reader env self c rest

/-! ## The snapshot of wsHandler -/

/-- Indexing a Go `map[string]string`: the value stored, the empty string on a miss. -/
def mapGet (vals : List (String × String)) (k : String) : String :=
  match vals.lookup k with
  | some v => v
  | none => ""

/-- What the presence store answers to the reads of `wsHandler`: the result of
`SMembers("kv:active_users")` and of `HGetAll(key)`, `none` for an error. -/
structure Store where
  smembers : Option (List String)
  hgetall : String → Option (List (String × String))

/-- The loop `for _, m := range members` of `wsHandler`. -/
def snapshotSelections (hgetall : String → Option (List (String × String))) :
    List String → List SnapshotSelection
  | [] => []
  | m :: rest =>
    match hgetall (userKey m) with
    | none => snapshotSelections hgetall rest
    | some vals =>
      if vals.length = 0 then snapshotSelections hgetall rest
      else
        let lk := trimSpace (mapGet vals "landmarkKey")
        let col := trimSpace (mapGet vals "color")
        if lk = "" ∨ col = "" then snapshotSelections hgetall rest
        else { UserID := m, LandmarkKey := lk, Color := col } :: snapshotSelections hgetall rest

/-- The snapshot message built in `wsHandler`; none is built when `SMembers` fails. -/
def snapshotMessage (store : Store) : Option SnapshotMessage :=
  store.smembers.map (fun members =>
    { Type_ := "snapshot", Selections := snapshotSelections store.hgetall members })

/-! ## Concrete inputs -/

/-- A memory in which every outbound queue is empty and open, as `make` leaves it. -/
def freshHeap : ClientRef → Client :=
  fun _ => { id := "", color := "", send := { buf := [], closed := false } }

/-- Three registered connections; the queue of connection 2 holds 256 payloads. -/
def fullState : HubState :=
  { clients := [0, 1, 2],
    heap := fun r =>
      { id := "", color := "",
        send := { buf := if r = 2 then List.replicate 256 [] else [], closed := false } } }

/-- Connection 1 is registered; connection 0 is about to be. -/
def bootState : HubState :=
  { clients := [1], heap := freshHeap }

/-- A stand-in for `json.Marshal`, for concrete runs: the four fields, bar-separated, as
code points. -/
def barEncode (out : SelectionBroadcast) : Payload :=
  (out.Type_ ++ "|" ++ out.UserID ++ "|" ++ out.LandmarkKey ++ "|" ++ out.Color).data.map
    Char.toNat

/-- An environment for concrete runs: no case mapping past ASCII, `barEncode` for
`json.Marshal`. -/
def sampleEnv : Env :=
  { unicodeLower := fun r => r, marshal := fun out => some (barEncode out) }

/-- The client of the end-to-end scenario. -/
def sampleClient : Client :=
  { id := "u1", color := "#AABBCC", send := { buf := [], closed := false } }

/-- A presence store in which `u1` has a selection and `u2` a landmarkKey of one space. -/
def sampleStore : Store :=
  { smembers := some ["u1", "u2"],
    hgetall := fun k =>
      if k = "kv:users:u1" then some [("color", "#AABBCC"), ("landmarkKey", "tree-42")]
      else if k = "kv:users:u2" then some [("color", "#112233"), ("landmarkKey", " ")]
      else some [] }

/-! ## The broadcast loop in closed form -/

theorem setSend_heap (s : HubState) (c x : ClientRef) (ch : Chan) :
    (s.setSend c ch).heap x = if x = c then { s.heap x with send := ch } else s.heap x := rfl

theorem setSend_clients (s : HubState) (c : ClientRef) (ch : Chan) :
    (s.setSend c ch).clients = s.clients := rfl

theorem deleteClient_heap (s : HubState) (c : ClientRef) :
    (s.deleteClient c).heap = s.heap := rfl

theorem deleteClient_clients (s : HubState) (c : ClientRef) :
    (s.deleteClient c).clients = s.clients.filter (fun x => x ≠ c) := rfl

theorem broadcastOne_sender (msg : broadcastItem) (s : HubState) :
    Hub.broadcastOne msg s msg.sender = some s := by
  simp [Hub.broadcastOne]

theorem broadcastOne_room (msg : broadcastItem) (s : HubState) (c : ClientRef)
    (hc : c ≠ msg.sender) (hopen : (s.heap c).send.closed = false)
    (hroom : (s.heap c).send.buf.length < sendQueueCap) :
    Hub.broadcastOne msg s c
      = some (s.setSend c { (s.heap c).send with buf := (s.heap c).send.buf ++ [msg.payload] }) := by
  simp [Hub.broadcastOne, hc, trySend, hopen, hroom]

theorem broadcastOne_full (msg : broadcastItem) (s : HubState) (c : ClientRef)
    (hc : c ≠ msg.sender) (hopen : (s.heap c).send.closed = false)
    (hfull : sendQueueCap ≤ (s.heap c).send.buf.length) :
    Hub.broadcastOne msg s c
      = some ((s.deleteClient c).setSend c { (s.heap c).send with closed := true }) := by
  have h : ¬ (s.heap c).send.buf.length < sendQueueCap := Nat.not_lt.mpr hfull
  simp [Hub.broadcastOne, hc, trySend, hopen, h, closeChan]

/-- One iteration of the broadcast loop never touches the sender, on any state. -/
theorem broadcastOne_keeps_sender (msg : broadcastItem) (s s1 : HubState) (c : ClientRef)
    (h : Hub.broadcastOne msg s c = some s1) :
    s1.heap msg.sender = s.heap msg.sender ∧
    (msg.sender ∈ s1.clients ↔ msg.sender ∈ s.clients) := by
  by_cases hc : c = msg.sender
  · simp only [Hub.broadcastOne, hc, if_true, Option.some.injEq] at h
    subst h
    exact ⟨rfl, Iff.rfl⟩
  · have hsc : msg.sender ≠ c := fun e => hc e.symm
    unfold Hub.broadcastOne at h
    simp only [hc, if_false] at h
    cases hts : trySend (s.heap c).send msg.payload with
    | sent ch =>
      rw [hts] at h
      simp only [Option.some.injEq] at h
      subst h
      exact ⟨by simp [setSend_heap, hsc], by rw [setSend_clients]⟩
    | full =>
      rw [hts] at h
      simp only [Option.map_eq_some'] at h
      obtain ⟨ch, _, h⟩ := h
      subst h
      refine ⟨by simp [setSend_heap, deleteClient_heap, hsc], ?_⟩
      rw [setSend_clients, deleteClient_clients, List.mem_filter]
      simp [hsc]
    | panicked =>
      rw [hts] at h
      cases h

/-- The broadcast loop never touches the sender, on any state and over any keys. -/
theorem broadcastLoop_keeps_sender (msg : broadcastItem) :
    ∀ (ks : List ClientRef) (s s1 : HubState), Hub.broadcastLoop msg ks s = some s1 →
      s1.heap msg.sender = s.heap msg.sender ∧
      (msg.sender ∈ s1.clients ↔ msg.sender ∈ s.clients) := by
  intro ks
  induction ks with
  | nil =>
    intro s s1 h
    simp only [Hub.broadcastLoop, Option.some.injEq] at h
    subst h
    exact ⟨rfl, Iff.rfl⟩
  | cons k rest ih =>
    intro s s1 h
    cases hone : Hub.broadcastOne msg s k with
    | none => simp [Hub.broadcastLoop, hone] at h
    | some s2 =>
      simp only [Hub.broadcastLoop, hone] at h
      obtain ⟨h1, h2⟩ := broadcastOne_keeps_sender msg s s2 k hone
      obtain ⟨h3, h4⟩ := ih s2 s1 h
      exact ⟨by rw [h3, h1], h4.trans h2⟩

/-- The broadcast loop never panics on keys whose queues are open, and its result is: every
visited key other than the sender has `deliveredSend` applied to its queue, the evicted
keys leave the registry, everything else is as before. -/
theorem broadcastLoop_spec (msg : broadcastItem) :
    ∀ (ks : List ClientRef) (s : HubState), ks.Nodup →
      (∀ k ∈ ks, k ≠ msg.sender → (s.heap k).send.closed = false) →
      ∃ s1, Hub.broadcastLoop msg ks s = some s1 ∧
        (∀ c, s1.heap c =
          if c ∈ ks ∧ c ≠ msg.sender
          then { s.heap c with send := deliveredSend msg (s.heap c).send }
          else s.heap c) ∧
        s1.clients = s.clients.filter (fun c => !(evicts msg ks s c)) := by
  intro ks
  induction ks with
  | nil =>
    intro s _ _
    refine ⟨s, rfl, ?_, ?_⟩
    · intro c; simp
    · simp [evicts]
  | cons k rest ih =>
    intro s hnd hopen
    have hk : k ∉ rest := (List.nodup_cons.mp hnd).1
    have hrest : rest.Nodup := (List.nodup_cons.mp hnd).2
    by_cases hs : k = msg.sender
    · -- the sender is skipped
      obtain ⟨s1, hrun, hheap, hcl⟩ := ih s hrest
        (fun x hx hne => hopen x (List.mem_cons_of_mem _ hx) hne)
      refine ⟨s1, ?_, ?_, ?_⟩
      · simp only [Hub.broadcastLoop, hs, broadcastOne_sender]; exact hrun
      · intro c
        rw [hheap c]
        by_cases hck : c = k
        · subst hck; simp [hs, hk]
        · simp [hck]
      · rw [hcl]
        apply List.filter_congr
        intro c _
        by_cases hck : c = k
        · subst hck; simp [evicts, hs]
        · simp [evicts, hck]
    · have hko : (s.heap k).send.closed = false := hopen k (List.mem_cons_self _ _) hs
      by_cases hroom : (s.heap k).send.buf.length < sendQueueCap
      · -- delivered
        obtain ⟨s1, hrun, hheap, hcl⟩ := ih
          (s.setSend k { (s.heap k).send with buf := (s.heap k).send.buf ++ [msg.payload] }) hrest
          (by
            intro x hx hne
            have hxk : x ≠ k := fun h => hk (h ▸ hx)
            simp only [setSend_heap, hxk, if_false]
            exact hopen x (List.mem_cons_of_mem _ hx) hne)
        refine ⟨s1, ?_, ?_, ?_⟩
        · simp only [Hub.broadcastLoop, broadcastOne_room msg s k hs hko hroom]; exact hrun
        · intro c
          rw [hheap c]
          by_cases hck : c = k
          · subst hck; simp [setSend_heap, hk, hs, deliveredSend, hroom]
          · simp [setSend_heap, hck]
        · rw [hcl, setSend_clients]
          apply List.filter_congr
          intro c _
          by_cases hck : c = k
          · subst hck
            simp [evicts, hk, hs, Nat.not_le.mpr hroom]
          · simp [evicts, setSend_heap, hck]
      · -- evicted
        have hfull : sendQueueCap ≤ (s.heap k).send.buf.length := Nat.not_lt.mp hroom
        obtain ⟨s1, hrun, hheap, hcl⟩ := ih
          ((s.deleteClient k).setSend k { (s.heap k).send with closed := true }) hrest
          (by
            intro x hx hne
            have hxk : x ≠ k := fun h => hk (h ▸ hx)
            simp only [setSend_heap, deleteClient_heap, hxk, if_false]
            exact hopen x (List.mem_cons_of_mem _ hx) hne)
        refine ⟨s1, ?_, ?_, ?_⟩
        · simp only [Hub.broadcastLoop, broadcastOne_full msg s k hs hko hfull]; exact hrun
        · intro c
          rw [hheap c]
          by_cases hck : c = k
          · subst hck; simp [setSend_heap, deleteClient_heap, hk, hs, deliveredSend, hroom]
          · simp [setSend_heap, deleteClient_heap, hck]
        · rw [hcl, setSend_clients, deleteClient_clients, List.filter_filter]
          apply List.filter_congr
          intro c _
          by_cases hck : c = k
          · subst hck
            simp [evicts, hs, hfull]
          · simp [evicts, setSend_heap, deleteClient_heap, hck]

/-- The broadcast step on a well-formed hub state, in closed form. -/
theorem broadcast_spec (s : HubState) (msg : broadcastItem) (hwf : s.WF) :
    ∃ s1, Hub.broadcast s msg = some s1 ∧
      (∀ c, s1.heap c =
        if c ∈ s.clients ∧ c ≠ msg.sender
        then { s.heap c with send := deliveredSend msg (s.heap c).send }
        else s.heap c) ∧
      s1.clients = s.clients.filter (fun c => !(evicts msg s.clients s c)) :=
  broadcastLoop_spec msg s.clients s hwf.1 (fun k hk _ => hwf.2 k hk)

theorem broadcast_preserves_WF (s s1 : HubState) (msg : broadcastItem) (hwf : s.WF)
    (h : Hub.broadcast s msg = some s1) : s1.WF := by
  obtain ⟨s2, hrun, hheap, hcl⟩ := broadcast_spec s msg hwf
  rw [h] at hrun
  cases hrun
  refine ⟨?_, ?_⟩
  · rw [hcl]; exact hwf.1.filter _
  · intro c hc
    rw [hcl, List.mem_filter] at hc
    obtain ⟨hmem, hev⟩ := hc
    rw [hheap c]
    by_cases hs : c = msg.sender
    · simp [hs]; exact hs ▸ hwf.2 c hmem
    · have hroom : (s.heap c).send.buf.length < sendQueueCap := by
        simpa [evicts, hmem, hs] using hev
      simp [hmem, hs, deliveredSend, hroom]
      exact hwf.2 c hmem

/-- A connection outside the registry is out of reach of a broadcast. -/
theorem broadcast_unregistered (s s1 : HubState) (msg : broadcastItem) (hwf : s.WF)
    (h : Hub.broadcast s msg = some s1) (c : ClientRef) (hc : c ∉ s.clients) :
    s1.heap c = s.heap c ∧ c ∉ s1.clients := by
  obtain ⟨s2, hrun, hheap, hcl⟩ := broadcast_spec s msg hwf
  rw [h] at hrun
  cases hrun
  refine ⟨?_, ?_⟩
  · rw [hheap c]; simp [hc]
  · rw [hcl]; intro hmem; exact hc (List.mem_filter.mp hmem).1

/-! ## One hub step -/

theorem register_fresh (s : HubState) (c : ClientRef) (hc : c ∉ s.clients) :
    Hub.register s c = { s with clients := c :: s.clients } := by
  simp [Hub.register, hc]

theorem unregister_absent (s : HubState) (c : ClientRef) (hc : c ∉ s.clients) :
    Hub.unregister s c = some s := by
  simp [Hub.unregister, hc]

theorem unregister_present (s : HubState) (c : ClientRef) (hc : c ∈ s.clients)
    (hopen : (s.heap c).send.closed = false) :
    Hub.unregister s c
      = some ((s.deleteClient c).setSend c { (s.heap c).send with closed := true }) := by
  simp [Hub.unregister, hc, closeChan, hopen]

/-- A hub step on a well-formed state whose registration, if it is one, is of a connection
that is not registered and has an open queue: the step completes, the state stays
well-formed, connections outside the registry that the step does not register are left
alone, and a registered connection that the step does not unregister and that has room
keeps its place with the step's payload, if any, at the tail of its queue. -/
theorem step_spec (s : HubState) (e : HubEvent) (hwf : s.WF)
    (hfresh : ∀ d, e = .register d → d ∉ s.clients ∧ (s.heap d).send.closed = false) :
    ∃ s1, Hub.step s e = some s1 ∧ s1.WF ∧
      (∀ d, d ∉ s.clients → e ≠ .register d → d ∉ s1.clients ∧ s1.heap d = s.heap d) ∧
      (∀ c ∈ s.clients, e ≠ .unregister c →
        (s.heap c).send.buf.length + (enqueuedOn c [Step.hub e]).length ≤ sendQueueCap →
        c ∈ s1.clients ∧
        s1.heap c = { s.heap c with
          send := { buf := (s.heap c).send.buf ++ enqueuedOn c [Step.hub e], closed := false } }) := by
  cases e with
  | register d =>
    obtain ⟨hd, hopen⟩ := hfresh d rfl
    refine ⟨_, rfl, ?_, ?_, ?_⟩
    · rw [register_fresh s d hd]
      refine ⟨List.nodup_cons.mpr ⟨hd, hwf.1⟩, ?_⟩
      intro c hc
      rcases List.mem_cons.mp hc with h | h
      · rw [h]; exact hopen
      · exact hwf.2 c h
    · intro x hx hne
      rw [register_fresh s d hd]
      refine ⟨?_, rfl⟩
      intro hmem
      rcases List.mem_cons.mp hmem with h | h
      · exact hne (by rw [h])
      · exact hx h
    · intro c hc _ _
      rw [register_fresh s d hd]
      refine ⟨List.mem_cons_of_mem _ hc, ?_⟩
      have := hwf.2 c hc
      simp [enqueuedOn, ← this]
  | unregister d =>
    by_cases hd : d ∈ s.clients
    · have hopen := hwf.2 d hd
      refine ⟨_, unregister_present s d hd hopen, ?_, ?_, ?_⟩
      · refine ⟨?_, ?_⟩
        · rw [setSend_clients, deleteClient_clients]; exact hwf.1.filter _
        · intro c hc
          rw [setSend_clients, deleteClient_clients, List.mem_filter] at hc
          have hcd : c ≠ d := by simpa using hc.2
          simp only [setSend_heap, deleteClient_heap, hcd, if_false]
          exact hwf.2 c hc.1
      · intro x hx _
        have hxd : x ≠ d := fun h => hx (h ▸ hd)
        refine ⟨?_, ?_⟩
        · rw [setSend_clients, deleteClient_clients]
          intro hmem; exact hx (List.mem_filter.mp hmem).1
        · simp only [setSend_heap, deleteClient_heap, hxd, if_false]
      · intro c hc hne _
        have hcd : c ≠ d := fun h => hne (by rw [h])
        refine ⟨?_, ?_⟩
        · rw [setSend_clients, deleteClient_clients, List.mem_filter]
          exact ⟨hc, by simpa using hcd⟩
        · have := hwf.2 c hc
          simp [setSend_heap, deleteClient_heap, hcd, enqueuedOn, ← this]
    · refine ⟨s, unregister_absent s d hd, hwf, ?_, ?_⟩
      · intro x hx _; exact ⟨hx, rfl⟩
      · intro c hc _ _
        have := hwf.2 c hc
        refine ⟨hc, ?_⟩
        simp [enqueuedOn, ← this]
  | broadcast msg =>
    obtain ⟨s1, hb, hheap, hcl⟩ := broadcast_spec s msg hwf
    refine ⟨s1, hb, broadcast_preserves_WF s s1 msg hwf hb, ?_, ?_⟩
    · intro x hx _
      obtain ⟨h1, h2⟩ := broadcast_unregistered s s1 msg hwf hb x hx
      exact ⟨h2, h1⟩
    · intro c hc _ hroom
      have hopen := hwf.2 c hc
      by_cases hs : c = msg.sender
      · refine ⟨?_, ?_⟩
        · rw [hcl, List.mem_filter]; exact ⟨hc, by simp [evicts, hs]⟩
        · rw [hheap]; simp [hs, enqueuedOn, ← hopen]
      · have hroom1 : (s.heap c).send.buf.length < sendQueueCap := by
          simp [enqueuedOn, hs] at hroom; omega
        refine ⟨?_, ?_⟩
        · rw [hcl, List.mem_filter]; simp [evicts, hc, hs, hroom1]
        · rw [hheap]; simp [hc, hs, enqueuedOn, deliveredSend, hroom1, ← hopen]

/-- Every sequence of hub steps that registers only connections that are unregistered and
open at the start, each at most once, runs to the end without a panic and ends in a
well-formed state; a connection outside the registry that the sequence does not register
is left alone. -/
theorem run_spec : ∀ (evs : List HubEvent) (s : HubState), s.WF →
    (registrations evs).Nodup →
    (∀ c ∈ registrations evs, c ∉ s.clients ∧ (s.heap c).send.closed = false) →
    ∃ s1, Hub.run s evs = some s1 ∧ s1.WF ∧
      ∀ d, d ∉ s.clients → d ∉ registrations evs → d ∉ s1.clients ∧ s1.heap d = s.heap d := by
  intro evs
  induction evs with
  | nil => intro s hwf _ _; exact ⟨s, rfl, hwf, fun d hd _ => ⟨hd, rfl⟩⟩
  | cons e rest ih =>
    intro s hwf hnd hfresh
    have hreg : ∀ d, e = .register d → registrations (e :: rest) = d :: registrations rest := by
      intro d hd; subst hd; rfl
    have hnreg : (∀ d, e ≠ .register d) → registrations (e :: rest) = registrations rest := by
      intro h
      cases e with
      | register d => exact absurd rfl (h d)
      | unregister d => rfl
      | broadcast m => rfl
    obtain ⟨s1, hstep, hwf1, hout, _⟩ := step_spec s e hwf (by
      intro d hd
      exact hfresh d (by rw [hreg d hd]; exact List.mem_cons_self _ _))
    have hsub : ∀ c ∈ registrations rest, c ∈ registrations (e :: rest) := by
      intro c hc
      by_cases h : ∃ d, e = .register d
      · obtain ⟨d, hd⟩ := h
        rw [hreg d hd]; exact List.mem_cons_of_mem _ hc
      · rw [hnreg (fun d hd => h ⟨d, hd⟩)]; exact hc
    have hnd1 : (registrations rest).Nodup := by
      by_cases h : ∃ d, e = .register d
      · obtain ⟨d, hd⟩ := h
        rw [hreg d hd] at hnd; exact (List.nodup_cons.mp hnd).2
      · rw [hnreg (fun d hd => h ⟨d, hd⟩)] at hnd; exact hnd
    obtain ⟨s2, hrun, hwf2, hout2⟩ := ih s1 hwf1 hnd1 (by
      intro c hc
      obtain ⟨h1, h2⟩ := hfresh c (hsub c hc)
      have hne : e ≠ .register c := by
        intro he
        rw [hreg c he] at hnd
        exact (List.nodup_cons.mp hnd).1 hc
      obtain ⟨h3, h4⟩ := hout c h1 hne
      exact ⟨h3, by rw [h4]; exact h2⟩)
    refine ⟨s2, ?_, hwf2, ?_⟩
    · simp only [Hub.run, hstep]; exact hrun
    · intro d hd hdr
      have hne : e ≠ .register d := by
        intro he
        exact hdr (by rw [hreg d he]; exact List.mem_cons_self _ _)
      obtain ⟨h3, h4⟩ := hout d hd hne
      obtain ⟨h5, h6⟩ := hout2 d h3 (fun h => hdr (hsub d h))
      exact ⟨h5, by rw [h6, h4]⟩

theorem registrations_append (a b : List HubEvent) :
    registrations (a ++ b) = registrations a ++ registrations b := by
  induction a with
  | nil => rfl
  | cons e rest ih => cases e <;> simp [registrations, ih]

/-- What a prefix of a sequence registers is a sublist of what the sequence registers. -/
theorem registrations_take (n : Nat) : ∀ evs : List HubEvent,
    (registrations (evs.take n)).Sublist (registrations evs) := by
  induction n with
  | zero => intro evs; simp [registrations]
  | succ k ih =>
    intro evs
    cases evs with
    | nil => simp [registrations]
    | cons e rest =>
      cases e with
      | register c => simpa [registrations] using ih rest
      | unregister c => simpa [registrations] using ih rest
      | broadcast m => simpa [registrations] using ih rest

/-! ## Hub steps interleaved with a handler's direct sends -/

theorem enqueuedOn_cons (c : ClientRef) (st : Step) (rest : List Step) :
    enqueuedOn c (st :: rest) = enqueuedOn c [st] ++ enqueuedOn c rest := by
  cases st with
  | hub e =>
    cases e with
    | register d => simp [enqueuedOn]
    | unregister d => simp [enqueuedOn]
    | broadcast msg => by_cases h : c = msg.sender <;> simp [enqueuedOn, h]
  | handlerSend d p => by_cases h : d = c <;> simp [enqueuedOn, h]

theorem enqueuedOn_append (c : ClientRef) (a b : List Step) :
    enqueuedOn c (a ++ b) = enqueuedOn c a ++ enqueuedOn c b := by
  induction a with
  | nil => simp [enqueuedOn]
  | cons st rest ih =>
    rw [List.cons_append, enqueuedOn_cons, ih, enqueuedOn_cons c st rest, List.append_assoc]

theorem hubEvents_append (a b : List Step) :
    hubEvents (a ++ b) = hubEvents a ++ hubEvents b := by
  induction a with
  | nil => rfl
  | cons st rest ih => cases st <;> simp [hubEvents, ih]

theorem hubEvents_map_hub (evs : List HubEvent) : hubEvents (evs.map Step.hub) = evs := by
  induction evs with
  | nil => rfl
  | cons e rest ih => simp [hubEvents, ih]

theorem registrations_cons_sub (e : HubEvent) (rest : List HubEvent) :
    (∀ c ∈ registrations rest, c ∈ registrations (e :: rest)) ∧
    ((registrations (e :: rest)).Nodup → (registrations rest).Nodup) ∧
    (∀ c, e = .register c → (registrations (e :: rest)).Nodup → c ∉ registrations rest) ∧
    (∀ c, e = .register c → c ∈ registrations (e :: rest)) := by
  cases e with
  | register d =>
    refine ⟨fun c hc => List.mem_cons_of_mem _ hc, fun h => (List.nodup_cons.mp h).2, ?_, ?_⟩
    · intro c hc h
      cases hc
      exact (List.nodup_cons.mp h).1
    · intro c hc
      cases hc
      exact List.mem_cons_self _ _
  | unregister d =>
    refine ⟨fun c hc => hc, fun h => h, ?_, ?_⟩ <;> intro c hc <;> cases hc
  | broadcast m =>
    refine ⟨fun c hc => hc, fun h => h, ?_, ?_⟩ <;> intro c hc <;> cases hc

theorem handlerSend_room (s : HubState) (c : ClientRef) (p : Payload)
    (hopen : (s.heap c).send.closed = false)
    (hroom : (s.heap c).send.buf.length < sendQueueCap) :
    System.step s (.handlerSend c p)
      = some (s.setSend c { buf := (s.heap c).send.buf ++ [p], closed := false }) := by
  simp [System.step, chanSend, hopen, hroom]

/-- The queue of a registered connection `c` through a sequence of steps in which `c` is
not unregistered, the only direct sends are to `c`, the registrations are of fresh
connections, and the queue of `c` has room for all that is sent to it: the sequence runs to
its end and the queue of `c` has grown by exactly `enqueuedOn c steps`, in order. -/
theorem run_track (c : ClientRef) : ∀ (steps : List Step) (s : HubState), s.WF →
    c ∈ s.clients →
    (∀ st ∈ steps, st ≠ .hub (.unregister c) ∧ ∀ d p, st = .handlerSend d p → d = c) →
    (registrations (hubEvents steps)).Nodup →
    (∀ d ∈ registrations (hubEvents steps), d ∉ s.clients ∧ (s.heap d).send.closed = false) →
    (s.heap c).send.buf.length + (enqueuedOn c steps).length ≤ sendQueueCap →
    ∃ s1, System.run s steps = some s1 ∧ s1.WF ∧ c ∈ s1.clients ∧
      s1.heap c = { s.heap c with
        send := { buf := (s.heap c).send.buf ++ enqueuedOn c steps, closed := false } } := by
  intro steps
  induction steps with
  | nil =>
    intro s hwf hc _ _ _ _
    refine ⟨s, rfl, hwf, hc, ?_⟩
    have := hwf.2 c hc
    simp [enqueuedOn, ← this]
  | cons st rest ih =>
    intro s hwf hc hok hnd hfresh hroom
    rw [enqueuedOn_cons, List.length_append] at hroom
    have hokr : ∀ st1 ∈ rest, st1 ≠ .hub (.unregister c) ∧ ∀ d p, st1 = .handlerSend d p → d = c :=
      fun st1 h => hok st1 (List.mem_cons_of_mem _ h)
    cases st with
    | hub e =>
      obtain ⟨hsub, hndr, hnot, hin⟩ := registrations_cons_sub e (hubEvents rest)
      have hnd1 : (registrations (e :: hubEvents rest)).Nodup := hnd
      have hfresh1 : ∀ d ∈ registrations (e :: hubEvents rest),
          d ∉ s.clients ∧ (s.heap d).send.closed = false := hfresh
      obtain ⟨s1, hstep, hwf1, hout, hreg⟩ := step_spec s e hwf
        (fun d hd => hfresh1 d (hin d hd))
      have hne : e ≠ .unregister c := by
        intro h
        exact (hok (.hub e) (List.mem_cons_self _ _)).1 (by rw [h])
      obtain ⟨hc1, hh1⟩ := hreg c hc hne (by omega)
      obtain ⟨s2, hrun, hwf2, hc2, hh2⟩ := ih s1 hwf1 hc1 hokr (hndr hnd1)
        (by
          intro d hd
          obtain ⟨h1, h2⟩ := hfresh1 d (hsub d hd)
          have hned : e ≠ .register d := fun he => hnot d he hnd1 hd
          obtain ⟨h3, h4⟩ := hout d h1 hned
          exact ⟨h3, by rw [h4]; exact h2⟩)
        (by rw [hh1]; simp only [List.length_append]; omega)
      refine ⟨s2, ?_, hwf2, hc2, ?_⟩
      · simp only [System.run, System.step, hstep]; exact hrun
      · rw [hh2, hh1, enqueuedOn_cons c (.hub e) rest]
        simp [List.append_assoc]
    | handlerSend d p =>
      have hdc : d = c := (hok (.handlerSend d p) (List.mem_cons_self _ _)).2 d p rfl
      subst hdc
      have hopen := hwf.2 d hc
      have hlen : (enqueuedOn d [Step.handlerSend d p]).length = 1 := by simp [enqueuedOn]
      have hroom1 : (s.heap d).send.buf.length < sendQueueCap := by omega
      have hwf1 : (s.setSend d { buf := (s.heap d).send.buf ++ [p], closed := false }).WF := by
        refine ⟨hwf.1, ?_⟩
        intro x hx
        rw [setSend_heap]
        by_cases hxd : x = d
        · simp [hxd]
        · simp only [hxd, if_false]; exact hwf.2 x hx
      obtain ⟨s2, hrun, hwf2, hc2, hh2⟩ := ih _ hwf1 hc hokr hnd
        (by
          intro x hx
          obtain ⟨h1, h2⟩ := hfresh x hx
          have hxd : x ≠ d := fun h => h1 (h ▸ hc)
          refine ⟨h1, ?_⟩
          simp only [setSend_heap, hxd, if_false]; exact h2)
        (by simp only [setSend_heap, if_true, List.length_append, List.length_singleton]; omega)
      refine ⟨s2, ?_, hwf2, hc2, ?_⟩
      · simp only [System.run, handlerSend_room s d p hopen hroom1]; exact hrun
      · rw [hh2, enqueuedOn_cons d (.handlerSend d p) rest]
        simp [setSend_heap, enqueuedOn, List.append_assoc]

/-! ## Strings -/

theorem all_of_all_dropWhile (p : Char → Bool) :
    ∀ l : List Char, (∀ x ∈ l.dropWhile p, p x = true) → ∀ x ∈ l, p x = true := by
  intro l
  induction l with
  | nil => intro _ x hx; cases hx
  | cons a t ih =>
    intro h x hx
    by_cases ha : p a = true
    · rw [List.dropWhile_cons_of_pos ha] at h
      rcases List.mem_cons.mp hx with hxa | hxt
      · rw [hxa]; exact ha
      · exact ih h x hxt
    · rw [List.dropWhile_cons_of_neg ha] at h
      exact h x hx

/-- Trimming with `strings.TrimSpace` gives the empty string exactly on the strings made of white space
only (the empty string among them). -/
theorem trimSpace_eq_empty_iff (s : String) :
    trimSpace s = "" ↔ ∀ ch ∈ s.data, isSpace ch = true := by
  have hmk : ∀ l : List Char, (String.mk l = "") ↔ l = [] := by
    intro l
    constructor
    · intro h; exact congrArg String.data h
    · intro h; rw [h]
  unfold trimSpace
  rw [hmk, List.reverse_eq_nil_iff, List.dropWhile_eq_nil_iff]
  constructor
  · intro h
    apply all_of_all_dropWhile
    intro x hx
    exact h x (List.mem_reverse.mpr hx)
  · intro h x hx
    exact h x ((List.dropWhile_sublist _).subset (List.mem_reverse.mp hx))

theorem toLowerRune_toUpper (f : Char → Char) (r : Char) :
    toLowerRune f r.toUpper = toLowerRune f r := by
  unfold Char.toUpper
  by_cases h : r.toNat ≥ 97 ∧ r.toNat ≤ 122
  · simp only [h, and_self, if_true]
    have hr : r = Char.ofNat r.toNat := (Char.ofNat_toNat r).symm
    generalize r.toNat = n at h hr
    subst hr
    obtain ⟨h1, h2⟩ := h
    interval_cases n <;> rfl
  · simp only [h, if_false]

theorem toLowerRune_toLower (f : Char → Char) (r : Char) :
    toLowerRune f r.toLower = toLowerRune f r := by
  unfold Char.toLower
  by_cases h : r.toNat ≥ 65 ∧ r.toNat ≤ 90
  · simp only [h, and_self, if_true]
    have hr : r = Char.ofNat r.toNat := (Char.ofNat_toNat r).symm
    generalize r.toNat = n at h hr
    subst hr
    obtain ⟨h1, h2⟩ := h
    interval_cases n <;> rfl
  · simp only [h, if_false]

/-- Lower-casing ignores the case of the ASCII letters of its argument. -/
theorem toLower_ascii_case (f : Char → Char) (s : String) :
    toLower f ⟨s.data.map Char.toUpper⟩ = toLower f s ∧
    toLower f ⟨s.data.map Char.toLower⟩ = toLower f s := by
  unfold toLower
  refine ⟨?_, ?_⟩
  · congr 1
    simp only [List.map_map]
    apply List.map_congr_left
    intro r _
    exact toLowerRune_toUpper f r
  · congr 1
    simp only [List.map_map]
    apply List.map_congr_left
    intro r _
    exact toLowerRune_toLower f r

/-! ## reader -/

theorem submitBroadcast_eq (env : Env) (self : ClientRef) (out : SelectionBroadcast) :
    submitBroadcast env self out
      = ((env.marshal out).map
          (fun p => Action.submit { sender := self, payload := p })).toList := by
  unfold submitBroadcast
  cases env.marshal out <;> rfl

theorem handleMessage_select (env : Env) (self : ClientRef) (c : Client) (now : Int)
    (msg : IncomingMessage)
    (ht : toLower env.unicodeLower msg.Type_ = "select" ∨
      toLower env.unicodeLower msg.Type_ = "selection") :
    handleMessage env self c now msg = handleSelect env self c now msg := by
  simp only [handleMessage, ht, if_true]

theorem handleMessage_deselect (env : Env) (self : ClientRef) (c : Client) (now : Int)
    (msg : IncomingMessage)
    (ht : toLower env.unicodeLower msg.Type_ = "deselect" ∨
      toLower env.unicodeLower msg.Type_ = "deselection") :
    handleMessage env self c now msg = handleDeselect env self c now msg := by
  have hn : ¬ (toLower env.unicodeLower msg.Type_ = "select" ∨
      toLower env.unicodeLower msg.Type_ = "selection") := by
    rcases ht with h | h <;> rw [h] <;> decide
  simp only [handleMessage, hn, ht, if_true, if_false]

/-- The handler reads the `type` and `landmarkKey` of a message and nothing else. -/
theorem handleMessage_congr (env : Env) (self : ClientRef) (c : Client) (now : Int)
    (m1 m2 : IncomingMessage)
    (ht : toLower env.unicodeLower m1.Type_ = toLower env.unicodeLower m2.Type_)
    (hk : m1.LandmarkKey = m2.LandmarkKey) :
    handleMessage env self c now m1 = handleMessage env self c now m2 := by
  simp only [handleMessage, handleSelect, handleDeselect, ht, hk]

/-! ## The snapshot loop in closed form -/

theorem trimSpace_empty : trimSpace "" = "" := by decide

/-- When every `HGetAll` succeeds, the snapshot loop keeps the members whose stored
landmarkKey and color are both non-empty once trimmed, in order, with the trimmed values. -/
theorem snapshotSelections_eq (hgetall : String → Option (List (String × String)))
    (vals : String → List (String × String)) :
    ∀ members : List String, (∀ m ∈ members, hgetall (userKey m) = some (vals m)) →
      snapshotSelections hgetall members
        = (members.filter (fun m =>
              decide (trimSpace (mapGet (vals m) "landmarkKey") ≠ "") &&
              decide (trimSpace (mapGet (vals m) "color") ≠ ""))).map
            (fun m => { UserID := m,
                        LandmarkKey := trimSpace (mapGet (vals m) "landmarkKey"),
                        Color := trimSpace (mapGet (vals m) "color") }) := by
  intro members
  induction members with
  | nil => intro _; rfl
  | cons a t ih =>
    intro h
    have ha := h a (List.mem_cons_self _ _)
    have iht := ih (fun m hm => h m (List.mem_cons_of_mem _ hm))
    by_cases hlen : (vals a).length = 0
    · have hnil : vals a = [] := List.length_eq_zero.mp hlen
      simp [snapshotSelections, ha, hnil, iht, mapGet, trimSpace_empty]
    · by_cases hlk : trimSpace (mapGet (vals a) "landmarkKey") = ""
      · simp [snapshotSelections, ha, hlen, hlk, iht]
      · by_cases hcol : trimSpace (mapGet (vals a) "color") = ""
        · simp [snapshotSelections, ha, hlen, hcol, iht]
        · simp [snapshotSelections, ha, hlen, hlk, hcol, iht]

/-- Over members without repetition, a kept member has one entry and any other none. -/
theorem count_entries (q : String → Bool) (g : String → SnapshotSelection)
    (hg : ∀ x, (g x).UserID = x) (m : String) :
    ∀ members : List String, members.Nodup →
      (((members.filter q).map g).filter (fun e => decide (e.UserID = m))).length
        = if m ∈ members ∧ q m = true then 1 else 0 := by
  intro members
  induction members with
  | nil => intro _; simp
  | cons a t ih =>
    intro hnd
    have hat : a ∉ t := (List.nodup_cons.mp hnd).1
    have iht := ih (List.nodup_cons.mp hnd).2
    by_cases hqa : q a = true
    · by_cases ham : a = m
      · subst ham
        have h0 : (((t.filter q).map g).filter (fun e => decide (e.UserID = a))).length = 0 := by
          rw [iht]; simp [hat]
        simp [List.filter_cons, hqa, hg, h0]
      · have hma : m ≠ a := fun h => ham h.symm
        simp [List.filter_cons, hqa, hg, ham, hma, iht]
    · by_cases ham : a = m
      · subst ham
        simp [List.filter_cons, hqa, iht, hat]
      · have hma : m ≠ a := fun h => ham h.symm
        simp [List.filter_cons, hqa, hma, iht]

/-! ## The hub contracts -/

/-- C1, no self-delivery: on every hub state, whenever the broadcast step completes it
leaves the sender's `Client` record, its outbound queue included, exactly as it was,
whatever the queue holds (a full queue too), and the sender is registered after the step if
and only if it was before; on a well-formed hub state the step does complete, and a
registered sender's queue is still open. -/
theorem no_self_delivery (s : HubState) (msg : broadcastItem) :
    (∀ s1, Hub.broadcast s msg = some s1 →
      s1.heap msg.sender = s.heap msg.sender ∧
      (msg.sender ∈ s1.clients ↔ msg.sender ∈ s.clients)) ∧
    (s.WF → ∃ s1, Hub.broadcast s msg = some s1 ∧
      s1.heap msg.sender = s.heap msg.sender ∧
      (msg.sender ∈ s1.clients ↔ msg.sender ∈ s.clients) ∧
      (msg.sender ∈ s.clients → (s1.heap msg.sender).send.closed = false)) := by
  refine ⟨fun s1 h => broadcastLoop_keeps_sender msg s.clients s s1 h, ?_⟩
  intro hwf
  obtain ⟨s1, hb, _, _⟩ := broadcast_spec s msg hwf
  obtain ⟨h1, h2⟩ := broadcastLoop_keeps_sender msg s.clients s s1 hb
  refine ⟨s1, hb, h1, h2, ?_⟩
  intro hmem
  rw [h1]
  exact hwf.2 _ hmem

/-- C2, fan-out delivery: on every well-formed hub state the broadcast step completes;
each registered connection other than the sender with fewer than 256 pending payloads gets
the payload once, at the tail of its queue, keeps an open queue and stays registered; the
`Client` record of every connection outside the registry is unchanged. -/
theorem fanout_delivery (s : HubState) (msg : broadcastItem) (hwf : s.WF) :
    ∃ s1, Hub.broadcast s msg = some s1 ∧
      (∀ c ∈ s.clients, c ≠ msg.sender → (s.heap c).send.buf.length < 256 →
        (s1.heap c).send = { buf := (s.heap c).send.buf ++ [msg.payload], closed := false } ∧
        c ∈ s1.clients) ∧
      (∀ c, c ∉ s.clients → s1.heap c = s.heap c ∧ c ∉ s1.clients) := by
  obtain ⟨s1, hb, hheap, hcl⟩ := broadcast_spec s msg hwf
  refine ⟨s1, hb, ?_, ?_⟩
  · intro c hmem hs hroom
    have hroom1 : (s.heap c).send.buf.length < sendQueueCap := hroom
    have hopen := hwf.2 c hmem
    refine ⟨?_, ?_⟩
    · rw [hheap]
      simp only [hmem, hs, ne_eq, not_false_eq_true, and_self, if_true, deliveredSend, hroom1]
      rw [← hopen]
    · rw [hcl, List.mem_filter]
      simp [evicts, hmem, hs, hroom1]
  · intro c hc
    exact broadcast_unregistered s s1 msg hwf hb c hc

/-- C3, backpressure eviction: when a registered connection other than the sender holds
256 (or more) pending payloads, the broadcast step on a well-formed hub state completes
(the send is non-blocking), the connection is gone from the registry, its queue is closed
with its contents untouched, every later run of hub steps (broadcasts, unregistrations,
registrations of other connections, each fresh and registered once) completes and leaves
that queue and its absence from the registry as they are, and the other registered peers
with room still get the payload at the tail of their queues. -/
theorem backpressure_eviction (s : HubState) (msg : broadcastItem) (c : ClientRef)
    (hwf : s.WF) (hmem : c ∈ s.clients) (hs : c ≠ msg.sender)
    (hfull : 256 ≤ (s.heap c).send.buf.length) :
    ∃ s1, Hub.broadcast s msg = some s1 ∧
      c ∉ s1.clients ∧
      (s1.heap c).send = { buf := (s.heap c).send.buf, closed := true } ∧
      (∀ evs : List HubEvent, (registrations evs).Nodup → c ∉ registrations evs →
        (∀ d ∈ registrations evs, d ∉ s1.clients ∧ (s1.heap d).send.closed = false) →
        ∃ s2, Hub.run s1 evs = some s2 ∧ s2.heap c = s1.heap c ∧ c ∉ s2.clients) ∧
      (∀ d ∈ s.clients, d ≠ msg.sender → (s.heap d).send.buf.length < 256 →
        (s1.heap d).send = { buf := (s.heap d).send.buf ++ [msg.payload], closed := false } ∧
        d ∈ s1.clients) := by
  obtain ⟨s1, hb, hheap, hcl⟩ := broadcast_spec s msg hwf
  have hwf1 := broadcast_preserves_WF s s1 msg hwf hb
  have hfull1 : sendQueueCap ≤ (s.heap c).send.buf.length := hfull
  have hout : c ∉ s1.clients := by
    rw [hcl, List.mem_filter]
    simp [evicts, hmem, hs, hfull1]
  refine ⟨s1, hb, hout, ?_, ?_, ?_⟩
  · rw [hheap]
    simp [hmem, hs, deliveredSend, Nat.not_lt.mpr hfull1]
  · intro evs hnd hcr hfresh
    obtain ⟨s2, hrun, _, hleft⟩ := run_spec evs s1 hwf1 hnd hfresh
    obtain ⟨h1, h2⟩ := hleft c hout hcr
    exact ⟨s2, hrun, h2, h1⟩
  · intro d hd hds hroom
    have hroom1 : (s.heap d).send.buf.length < sendQueueCap := hroom
    have hopen := hwf.2 d hd
    refine ⟨?_, ?_⟩
    · rw [hheap]
      simp only [hd, hds, ne_eq, not_false_eq_true, and_self, if_true, deliveredSend, hroom1]
      rw [← hopen]
    · rw [hcl, List.mem_filter]
      simp [evicts, hd, hds, hroom1]

/-- C8, single close: from the fresh hub of `newHub`, with every outbound queue open as
`make` leaves it, every sequence of register, unregister and broadcast steps that
registers each connection at most once runs without a panic (closing a closed queue is
one), so no queue is closed twice: after every prefix of the sequence the hub is in a state
whose registry holds each connection once and whose registered connections all have an
open queue, and in which unregistering a connection that is not in the registry is a step
that returns the very same state. -/
theorem single_close (heap : ClientRef → Client) (evs : List HubEvent)
    (hopen : ∀ c, (heap c).send.closed = false)
    (honce : (registrations evs).Nodup) :
    ∀ n, ∃ s, Hub.run (newHub heap) (evs.take n) = some s ∧
      s.clients.Nodup ∧
      (∀ c ∈ s.clients, (s.heap c).send.closed = false) ∧
      (∀ c, c ∉ s.clients → Hub.step s (.unregister c) = some s) := by
  intro n
  obtain ⟨s, hrun, hwf, _⟩ := run_spec (evs.take n) (newHub heap)
    ⟨List.nodup_nil, by simp [newHub]⟩ ((registrations_take n evs).nodup honce)
    (fun c _ => ⟨by simp [newHub], hopen c⟩)
  exact ⟨s, hrun, hwf.1, hwf.2, fun c hc => unregister_absent s c hc⟩

/-! ## The bootstrap of wsHandler against the hub -/

theorem enqueuedOn_send_toList (c : ClientRef) (p : Option Payload) :
    enqueuedOn c (p.map (Step.handlerSend c)).toList = p.toList := by
  cases p <;> simp [enqueuedOn]

theorem hubEvents_send_toList (c : ClientRef) (p : Option Payload) :
    hubEvents (p.map (Step.handlerSend c)).toList = [] := by
  cases p <;> simp [hubEvents]

theorem mem_send_toList (c : ClientRef) (p : Option Payload) (st : Step)
    (h : st ∈ (p.map (Step.handlerSend c)).toList) : ∃ q, st = Step.handlerSend c q := by
  cases p with
  | none => simp at h
  | some q => exact ⟨q, by simpa using h⟩

/-- The steps of the bootstrap after the registration. -/
theorem bootstrap_tail (s : HubState) (c : ClientRef) (welcome snap : Option Payload)
    (evs1 evs2 : List HubEvent) :
    wsHandlerBootstrap s c welcome snap evs1 evs2
      = System.run (Hub.register s c)
          (evs1.map Step.hub ++ (welcome.map (Step.handlerSend c)).toList
            ++ evs2.map Step.hub ++ (snap.map (Step.handlerSend c)).toList) := by
  simp [wsHandlerBootstrap, bootstrapSteps, System.run, System.step, Hub.step]

/-- The queue of a new connection from its registration on: for a connection `c` that is
not yet registered and has an open queue, hub steps `evs1` and `evs2` that do not
unregister `c` and register only fresh connections, each once, and room in the queue, the
bootstrap completes with `c` registered and its queue grown by the broadcasts of `evs1`,
the welcome, the broadcasts of `evs2`, the snapshot, in this order. -/
theorem bootstrap_after_register (s : HubState) (c : ClientRef) (welcome snap : Option Payload)
    (evs1 evs2 : List HubEvent) (hwf : s.WF) (hc : c ∉ s.clients)
    (hopen : (s.heap c).send.closed = false)
    (hstay : HubEvent.unregister c ∉ evs1 ++ evs2)
    (honce : (registrations (evs1 ++ evs2)).Nodup)
    (hfresh : ∀ d ∈ registrations (evs1 ++ evs2),
      d ≠ c ∧ d ∉ s.clients ∧ (s.heap d).send.closed = false)
    (hroom : (s.heap c).send.buf.length + (broadcastPayloads c evs1).length
      + welcome.toList.length + (broadcastPayloads c evs2).length + snap.toList.length ≤ 256) :
    ∃ s1, wsHandlerBootstrap s c welcome snap evs1 evs2 = some s1 ∧
      c ∈ s1.clients ∧
      (s1.heap c).send =
        { buf := (s.heap c).send.buf ++ broadcastPayloads c evs1 ++ welcome.toList
            ++ broadcastPayloads c evs2 ++ snap.toList,
          closed := false } := by
  have henq : enqueuedOn c (evs1.map Step.hub ++ (welcome.map (Step.handlerSend c)).toList
        ++ evs2.map Step.hub ++ (snap.map (Step.handlerSend c)).toList)
      = broadcastPayloads c evs1 ++ welcome.toList ++ broadcastPayloads c evs2 ++ snap.toList := by
    simp only [enqueuedOn_append, enqueuedOn_send_toList, broadcastPayloads]
  have hhub : hubEvents (evs1.map Step.hub ++ (welcome.map (Step.handlerSend c)).toList
        ++ evs2.map Step.hub ++ (snap.map (Step.handlerSend c)).toList) = evs1 ++ evs2 := by
    simp only [hubEvents_append, hubEvents_send_toList, hubEvents_map_hub, List.append_nil]
  have hreg : Hub.register s c = { s with clients := c :: s.clients } := register_fresh s c hc
  obtain ⟨s1, hrun, _, hc1, hh1⟩ := run_track c
    (evs1.map Step.hub ++ (welcome.map (Step.handlerSend c)).toList
      ++ evs2.map Step.hub ++ (snap.map (Step.handlerSend c)).toList)
    (Hub.register s c)
    (by
      rw [hreg]
      refine ⟨List.nodup_cons.mpr ⟨hc, hwf.1⟩, ?_⟩
      intro x hx
      rcases List.mem_cons.mp hx with h | h
      · rw [h]; exact hopen
      · exact hwf.2 x h)
    (by rw [hreg]; exact List.mem_cons_self _ _)
    (by
      intro st hst
      simp only [List.mem_append, List.mem_map] at hst
      refine ⟨?_, ?_⟩
      · intro heq
        subst heq
        rcases hst with ((⟨e, he, h⟩ | h) | ⟨e, he, h⟩) | h
        · cases h; exact hstay (List.mem_append_left _ he)
        · obtain ⟨q, hq⟩ := mem_send_toList c welcome _ h; cases hq
        · cases h; exact hstay (List.mem_append_right _ he)
        · obtain ⟨q, hq⟩ := mem_send_toList c snap _ h; cases hq
      · intro d p heq
        subst heq
        rcases hst with ((⟨e, _, h⟩ | h) | ⟨e, _, h⟩) | h
        · cases h
        · obtain ⟨q, hq⟩ := mem_send_toList c welcome _ h; cases hq; rfl
        · cases h
        · obtain ⟨q, hq⟩ := mem_send_toList c snap _ h; cases hq; rfl)
    (by rw [hhub]; exact honce)
    (by
      rw [hhub, hreg]
      intro d hd
      obtain ⟨h1, h2, h3⟩ := hfresh d hd
      refine ⟨?_, h3⟩
      intro hmem
      rcases List.mem_cons.mp hmem with h | h
      · exact h1 h
      · exact h2 h)
    (by
      rw [henq, hreg]
      simp only [List.length_append, sendQueueCap]
      omega)
  refine ⟨s1, ?_, hc1, ?_⟩
  · rw [bootstrap_tail]; exact hrun
  · rw [hh1, henq, hreg]
    simp [List.append_assoc]

/-- C10 as amended, the queue of a new connection after its bootstrap: take a well-formed
hub state in which `c` is not registered and has an open queue, hub steps `evs0` taken
before the registration of `c`, `evs1` taken between the registration and the welcome
send, `evs2` taken between the welcome send and the snapshot send, where `evs1` and `evs2`
do not unregister `c`, all three register only fresh connections other than `c`, each
once, and the queue of `c` has room.  Then the hub steps and the bootstrap complete, `c`
is registered, and its queue holds what it held at the start, then the broadcasts of other
senders in `evs1`, then the welcome if one was marshalled, then the broadcasts of other
senders in `evs2`, then the snapshot if one was built: no broadcast of `evs0` is on it.
When the queue was empty at the start and neither `evs1` nor `evs2` holds a broadcast of
another sender, the queue holds the welcome and the snapshot and nothing else. -/
theorem bootstrap_queue (s : HubState) (c : ClientRef) (welcome snap : Option Payload)
    (evs0 evs1 evs2 : List HubEvent) (hwf : s.WF) (hc : c ∉ s.clients)
    (hopen : (s.heap c).send.closed = false)
    (hstay : HubEvent.unregister c ∉ evs1 ++ evs2)
    (honce : (registrations (evs0 ++ (evs1 ++ evs2))).Nodup)
    (hfresh : ∀ d ∈ registrations (evs0 ++ (evs1 ++ evs2)),
      d ≠ c ∧ d ∉ s.clients ∧ (s.heap d).send.closed = false)
    (hroom : (s.heap c).send.buf.length + (broadcastPayloads c evs1).length
      + welcome.toList.length + (broadcastPayloads c evs2).length + snap.toList.length ≤ 256) :
    ∃ s0 s1, Hub.run s evs0 = some s0 ∧
      wsHandlerBootstrap s0 c welcome snap evs1 evs2 = some s1 ∧
      c ∈ s1.clients ∧
      (s1.heap c).send =
        { buf := (s.heap c).send.buf ++ broadcastPayloads c evs1 ++ welcome.toList
            ++ broadcastPayloads c evs2 ++ snap.toList,
          closed := false } ∧
      ((s.heap c).send.buf = [] → broadcastPayloads c evs1 = [] →
        broadcastPayloads c evs2 = [] →
        (s1.heap c).send.buf = welcome.toList ++ snap.toList) := by
  rw [registrations_append] at honce hfresh
  have hnd0 : (registrations evs0).Nodup := (List.nodup_append.mp honce).1
  have hnd12 : (registrations (evs1 ++ evs2)).Nodup := (List.nodup_append.mp honce).2.1
  have hdisj := (List.nodup_append.mp honce).2.2
  obtain ⟨s0, hrun0, hwf0, hleft⟩ := run_spec evs0 s hwf hnd0
    (fun d hd => (hfresh d (List.mem_append_left _ hd)).2)
  have hc0 : c ∉ registrations evs0 :=
    fun h => (hfresh c (List.mem_append_left _ h)).1 rfl
  obtain ⟨hcs0, hheap0⟩ := hleft c hc hc0
  obtain ⟨s1, hboot, hc1, hsend⟩ := bootstrap_after_register s0 c welcome snap evs1 evs2 hwf0
    hcs0 (by rw [hheap0]; exact hopen) hstay hnd12
    (by
      intro d hd
      obtain ⟨h1, h2, h3⟩ := hfresh d (List.mem_append_right _ hd)
      have hd0 : d ∉ registrations evs0 := fun h => hdisj h hd
      obtain ⟨h4, h5⟩ := hleft d h2 hd0
      exact ⟨h1, h4, by rw [h5]; exact h3⟩)
    (by rw [hheap0]; exact hroom)
  rw [hheap0] at hsend
  refine ⟨s0, s1, hrun0, hboot, hc1, hsend, ?_⟩
  intro hb h1 h2
  rw [hsend, hb, h1, h2]
  simp

/-! ## The handler contracts -/

/-- C4, identity integrity: for a select/selection message whose landmarkKey is not blank
and for a deselect/deselection message, what the handler does is a list of presence-store
calls followed by the submission, with sender reference `self`, of the marshalling of a
value whose userId and color are the connection's own id and color; and a message with
the same type and landmarkKey, whatever its userId, gives the very same store calls and
the very same broadcast. -/
theorem identity_integrity (env : Env) (self : ClientRef) (c : Client) (now : Int)
    (msg : IncomingMessage)
    (h : ((toLower env.unicodeLower msg.Type_ = "select" ∨
            toLower env.unicodeLower msg.Type_ = "selection") ∧
          ∃ ch ∈ msg.LandmarkKey.data, isSpace ch = false) ∨
        (toLower env.unicodeLower msg.Type_ = "deselect" ∨
          toLower env.unicodeLower msg.Type_ = "deselection")) :
    ∃ (calls : List StoreCall) (out : SelectionBroadcast),
      handleMessage env self c now msg
        = calls.map Action.store ++
          ((env.marshal out).map
            (fun p => Action.submit { sender := self, payload := p })).toList ∧
      out.UserID = c.id ∧ out.Color = c.color ∧
      ∀ m2 : IncomingMessage, m2.Type_ = msg.Type_ → m2.LandmarkKey = msg.LandmarkKey →
        handleMessage env self c now m2 = handleMessage env self c now msg := by
  have hcongr : ∀ m2 : IncomingMessage, m2.Type_ = msg.Type_ →
      m2.LandmarkKey = msg.LandmarkKey →
      handleMessage env self c now m2 = handleMessage env self c now msg :=
    fun m2 h1 h2 => handleMessage_congr env self c now m2 msg (by rw [h1]) h2
  rcases h with ⟨ht, ch, hch, hns⟩ | ht
  · have hne : trimSpace msg.LandmarkKey ≠ "" := by
      intro he
      have := (trimSpace_eq_empty_iff _).mp he ch hch
      rw [hns] at this
      cases this
    refine ⟨[.hset (userKey c.id)
        [("landmarkKey", .str (trimSpace msg.LandmarkKey)), ("lastUpdated", .int now)]],
      selectionOut c (trimSpace msg.LandmarkKey), ?_, rfl, rfl, hcongr⟩
    rw [handleMessage_select env self c now msg ht]
    simp [handleSelect, hne, submitBroadcast_eq]
  · refine ⟨[.hdel (userKey c.id) "landmarkKey", .hset (userKey c.id) [("lastUpdated", .int now)]],
      deselectionOut c (trimSpace msg.LandmarkKey), ?_, rfl, rfl, hcongr⟩
    rw [handleMessage_deselect env self c now msg ht]
    simp [handleDeselect, submitBroadcast_eq]

/-- C5, empty-key rejection: for a select/selection message whose landmarkKey is empty or
made of white space only, the handler does nothing (no presence-store call, no
submission), and the read loop goes on with the messages that follow. -/
theorem empty_key_rejection (env : Env) (self : ClientRef) (c : Client) (now : Int)
    (msg : IncomingMessage) (rest : List ReadResult)
    (ht : toLower env.unicodeLower msg.Type_ = "select" ∨
      toLower env.unicodeLower msg.Type_ = "selection")
    (hblank : ∀ ch ∈ msg.LandmarkKey.data, isSpace ch = true) :
    handleMessage env self c now msg = [] ∧
    reader env self c (.message now (some msg) :: rest) = reader env self c rest := by
  have he : trimSpace msg.LandmarkKey = "" := (trimSpace_eq_empty_iff _).mpr hblank
  have hm : handleMessage env self c now msg = [] := by
    rw [handleMessage_select env self c now msg ht]
    simp [handleSelect, he]
  exact ⟨hm, by simp [reader, hm]⟩

/-- C7, message-type dispatch: the handler looks at the lower-cased type only, so the case
of the ASCII letters of the type does not matter.  Lower-cased `select` or `selection`
runs the select handling: nothing for a blank landmarkKey, otherwise one `HSet` of the
trimmed landmarkKey and `lastUpdated` on the connection's presence key followed by the
submission, with sender reference `self`, of the marshalled selection carrying the
connection's id and color and the trimmed key.  Lower-cased `deselect` or `deselection`
runs the deselect handling: `HDel` of `landmarkKey`, `HSet` of `lastUpdated`, then the
submission of the marshalled deselection.  Any other type does nothing (no presence-store
call, no submission).  After any message, one that does not parse included, the read loop
goes on with the messages that follow. -/
theorem message_dispatch (env : Env) (self : ClientRef) (c : Client) (now : Int)
    (msg : IncomingMessage) (rest : List ReadResult) :
    (toLower env.unicodeLower msg.Type_ = "select" ∨
        toLower env.unicodeLower msg.Type_ = "selection" →
      handleMessage env self c now msg
        = if trimSpace msg.LandmarkKey = "" then []
          else
            Action.store (.hset ("kv:users:" ++ c.id)
                [("landmarkKey", .str (trimSpace msg.LandmarkKey)),
                 ("lastUpdated", .int now)]) ::
              ((env.marshal
                  { Type_ := "selection", UserID := c.id,
                    LandmarkKey := trimSpace msg.LandmarkKey, Color := c.color }).map
                (fun p => Action.submit { sender := self, payload := p })).toList) ∧
    (toLower env.unicodeLower msg.Type_ = "deselect" ∨
        toLower env.unicodeLower msg.Type_ = "deselection" →
      handleMessage env self c now msg
        = Action.store (.hdel ("kv:users:" ++ c.id) "landmarkKey") ::
          Action.store (.hset ("kv:users:" ++ c.id) [("lastUpdated", .int now)]) ::
            ((env.marshal
                { Type_ := "deselection", UserID := c.id,
                  LandmarkKey := trimSpace msg.LandmarkKey, Color := c.color }).map
              (fun p => Action.submit { sender := self, payload := p })).toList) ∧
    (toLower env.unicodeLower msg.Type_ ≠ "select" →
      toLower env.unicodeLower msg.Type_ ≠ "selection" →
      toLower env.unicodeLower msg.Type_ ≠ "deselect" →
      toLower env.unicodeLower msg.Type_ ≠ "deselection" →
      handleMessage env self c now msg = []) ∧
    handleMessage env self c now { msg with Type_ := ⟨msg.Type_.data.map Char.toUpper⟩ }
      = handleMessage env self c now msg ∧
    handleMessage env self c now { msg with Type_ := ⟨msg.Type_.data.map Char.toLower⟩ }
      = handleMessage env self c now msg ∧
    reader env self c (.message now (some msg) :: rest)
      = handleMessage env self c now msg ++ reader env self c rest ∧
    reader env self c (.message now none :: rest) = reader env self c rest := by
  refine ⟨?_, ?_, ?_, ?_, ?_, rfl, rfl⟩
  · intro ht
    rw [handleMessage_select env self c now msg ht]
    by_cases hk : trimSpace msg.LandmarkKey = ""
    · simp [handleSelect, hk]
    · simp [handleSelect, hk, submitBroadcast_eq, selectionOut, userKey]
  · intro ht
    rw [handleMessage_deselect env self c now msg ht]
    simp [handleDeselect, submitBroadcast_eq, deselectionOut, userKey]
  · intro h1 h2 h3 h4
    simp [handleMessage, h1, h2, h3, h4]
  · exact handleMessage_congr env self c now _ msg (toLower_ascii_case _ _).1 rfl
  · exact handleMessage_congr env self c now _ msg (toLower_ascii_case _ _).2 rfl

/-- C9 as amended, deselect handling: for every deselect/deselection message, whatever its
landmarkKey, the handler removes the `landmarkKey` field of the connection's presence key,
sets `lastUpdated`, and submits, with sender reference `self`, the marshalling of a
deselection carrying the connection's id and color and the landmarkKey of the message
with leading and trailing white space trimmed; the stored state is not consulted. -/
theorem deselect_handling (env : Env) (self : ClientRef) (c : Client) (now : Int)
    (msg : IncomingMessage)
    (ht : toLower env.unicodeLower msg.Type_ = "deselect" ∨
      toLower env.unicodeLower msg.Type_ = "deselection") :
    handleMessage env self c now msg
      = [Action.store (.hdel ("kv:users:" ++ c.id) "landmarkKey"),
         Action.store (.hset ("kv:users:" ++ c.id) [("lastUpdated", .int now)])]
        ++ ((env.marshal
              { Type_ := "deselection", UserID := c.id,
                LandmarkKey := trimSpace msg.LandmarkKey, Color := c.color }).map
            (fun p => Action.submit { sender := self, payload := p })).toList := by
  rw [handleMessage_deselect env self c now msg ht]
  simp [handleDeselect, submitBroadcast_eq, deselectionOut, userKey]

/-- C6 as amended, snapshot completeness: when `SMembers` and every `HGetAll` succeed, the
snapshot is built, and its selections are, in the order of the members, one entry for each
member whose stored landmarkKey and stored color are both non-empty after trimming white
space, carrying the member's id and the trimmed landmarkKey and color; with the members
free of repetition (they are a set), such a member has exactly one entry and every other
id has none. -/
theorem snapshot_completeness (store : Store) (members : List String)
    (vals : String → List (String × String))
    (hm : store.smembers = some members)
    (hreads : ∀ m ∈ members, store.hgetall (userKey m) = some (vals m))
    (hnd : members.Nodup) :
    ∃ snap, snapshotMessage store = some snap ∧ snap.Type_ = "snapshot" ∧
      snap.Selections
        = (members.filter (fun m =>
              decide (trimSpace (mapGet (vals m) "landmarkKey") ≠ "") &&
              decide (trimSpace (mapGet (vals m) "color") ≠ ""))).map
            (fun m => { UserID := m,
                        LandmarkKey := trimSpace (mapGet (vals m) "landmarkKey"),
                        Color := trimSpace (mapGet (vals m) "color") }) ∧
      ∀ m, (snap.Selections.filter (fun e => decide (e.UserID = m))).length
        = if m ∈ members ∧ trimSpace (mapGet (vals m) "landmarkKey") ≠ "" ∧
              trimSpace (mapGet (vals m) "color") ≠ "" then 1 else 0 := by
  refine ⟨{ Type_ := "snapshot", Selections := snapshotSelections store.hgetall members },
    by simp [snapshotMessage, hm], rfl, snapshotSelections_eq _ vals members hreads, ?_⟩
  intro m
  simp only [snapshotSelections_eq _ vals members hreads]
  rw [count_entries _ _ (fun _ => rfl) m members hnd]
  simp

/-! ## The contracts at concrete inputs -/

set_option maxRecDepth 100000 in
/-- C1 at `fullState`, with connection 2, whose own queue is full, as the sender. -/
theorem no_self_delivery_witness :
    fullState.WF ∧
    ∃ s1, Hub.broadcast fullState { sender := 2, payload := [7] } = some s1 ∧
      s1.heap 2 = fullState.heap 2 ∧
      (2 ∈ s1.clients ↔ 2 ∈ fullState.clients) ∧
      (2 ∈ fullState.clients → (s1.heap 2).send.closed = false) :=
  ⟨by decide, (no_self_delivery fullState { sender := 2, payload := [7] }).2 (by decide)⟩

set_option maxRecDepth 100000 in
/-- C2 at `fullState`, with connection 0 as the sender. -/
theorem fanout_delivery_witness :
    fullState.WF ∧
    ∃ s1, Hub.broadcast fullState { sender := 0, payload := [7] } = some s1 ∧
      (∀ c ∈ fullState.clients, c ≠ 0 → (fullState.heap c).send.buf.length < 256 →
        (s1.heap c).send
          = { buf := (fullState.heap c).send.buf ++ [[7]], closed := false } ∧
        c ∈ s1.clients) ∧
      (∀ c, c ∉ fullState.clients → s1.heap c = fullState.heap c ∧ c ∉ s1.clients) :=
  ⟨by decide, fanout_delivery fullState { sender := 0, payload := [7] } (by decide)⟩

set_option maxRecDepth 100000 in
/-- C3 at `fullState`: connection 0 broadcasts, connection 2 is full and is evicted. -/
theorem backpressure_eviction_witness :
    (fullState.WF ∧ 2 ∈ fullState.clients ∧ 256 ≤ (fullState.heap 2).send.buf.length) ∧
    ∃ s1, Hub.broadcast fullState { sender := 0, payload := [7] } = some s1 ∧
      2 ∉ s1.clients ∧
      (s1.heap 2).send = { buf := (fullState.heap 2).send.buf, closed := true } ∧
      (∀ evs : List HubEvent, (registrations evs).Nodup → 2 ∉ registrations evs →
        (∀ d ∈ registrations evs, d ∉ s1.clients ∧ (s1.heap d).send.closed = false) →
        ∃ s2, Hub.run s1 evs = some s2 ∧ s2.heap 2 = s1.heap 2 ∧ 2 ∉ s2.clients) ∧
      (∀ d ∈ fullState.clients, d ≠ 0 → (fullState.heap d).send.buf.length < 256 →
        (s1.heap d).send
          = { buf := (fullState.heap d).send.buf ++ [[7]], closed := false } ∧
        d ∈ s1.clients) :=
  ⟨by decide,
    backpressure_eviction fullState { sender := 0, payload := [7] } 2
      (by decide) (by decide) (by decide) (by decide)⟩

/-- C8 on a run that registers two connections, broadcasts, and unregisters one of them
twice. -/
theorem single_close_witness :
    (registrations [.register 0, .register 1, .broadcast { sender := 0, payload := [7] },
        .unregister 0, .unregister 0]).Nodup ∧
    ∀ n, ∃ s, Hub.run (newHub freshHeap)
        (List.take n [.register 0, .register 1, .broadcast { sender := 0, payload := [7] },
          .unregister 0, .unregister 0]) = some s ∧
      s.clients.Nodup ∧
      (∀ c ∈ s.clients, (s.heap c).send.closed = false) ∧
      (∀ c, c ∉ s.clients → Hub.step s (.unregister c) = some s) :=
  ⟨by decide, single_close freshHeap _ (fun _ => rfl) (by decide)⟩

/-- C4 on a select whose `userId` field names somebody else. -/
theorem identity_integrity_witness :
    ∃ (calls : List StoreCall) (out : SelectionBroadcast),
      handleMessage sampleEnv 0 sampleClient 5
          { Type_ := "SELECT", UserID := "mallory", LandmarkKey := " tree-42 " }
        = calls.map Action.store ++
          ((sampleEnv.marshal out).map
            (fun p => Action.submit { sender := 0, payload := p })).toList ∧
      out.UserID = "u1" ∧ out.Color = "#AABBCC" ∧
      ∀ m2 : IncomingMessage, m2.Type_ = "SELECT" → m2.LandmarkKey = " tree-42 " →
        handleMessage sampleEnv 0 sampleClient 5 m2
          = handleMessage sampleEnv 0 sampleClient 5
              { Type_ := "SELECT", UserID := "mallory", LandmarkKey := " tree-42 " } :=
  identity_integrity sampleEnv 0 sampleClient 5
    { Type_ := "SELECT", UserID := "mallory", LandmarkKey := " tree-42 " }
    (Or.inl ⟨by decide, 't', by decide, by decide⟩)

/-- C5 on a select whose landmarkKey is a space and a tab. -/
theorem empty_key_rejection_witness :
    handleMessage sampleEnv 0 sampleClient 5
        { Type_ := "Select", UserID := "", LandmarkKey := " \t" } = [] ∧
    reader sampleEnv 0 sampleClient
        [.message 5 (some { Type_ := "Select", UserID := "", LandmarkKey := " \t" }),
          .message 6 (some { Type_ := "select", UserID := "", LandmarkKey := "tree-42" })]
      = reader sampleEnv 0 sampleClient
        [.message 6 (some { Type_ := "select", UserID := "", LandmarkKey := "tree-42" })] :=
  empty_key_rejection sampleEnv 0 sampleClient 5
    { Type_ := "Select", UserID := "", LandmarkKey := " \t" }
    [.message 6 (some { Type_ := "select", UserID := "", LandmarkKey := "tree-42" })]
    (by decide) (by decide)

/-- C7 on a select typed `SeLeCt` with a padded key: the `HSet` and the submission are there,
with the trimmed key and the connection's own id and color. -/
theorem message_dispatch_witness :
    handleMessage sampleEnv 0 sampleClient 5
        { Type_ := "SeLeCt", UserID := "", LandmarkKey := " tree-42 " }
      = [Action.store (.hset "kv:users:u1"
           [("landmarkKey", .str "tree-42"), ("lastUpdated", .int 5)]),
         Action.submit
           { sender := 0,
             payload := barEncode { Type_ := "selection", UserID := "u1",
                                    LandmarkKey := "tree-42", Color := "#AABBCC" } }] :=
  ((message_dispatch sampleEnv 0 sampleClient 5
      { Type_ := "SeLeCt", UserID := "", LandmarkKey := " tree-42 " } []).1
    (by decide)).trans (by decide)

/-- C9 as amended, on a deselect whose landmarkKey is padded. -/
theorem deselect_handling_witness :
    handleMessage sampleEnv 0 sampleClient 5
        { Type_ := "deselect", UserID := "", LandmarkKey := " tree-42 " }
      = [Action.store (.hdel ("kv:users:" ++ "u1") "landmarkKey"),
         Action.store (.hset ("kv:users:" ++ "u1") [("lastUpdated", .int 5)])]
        ++ ((sampleEnv.marshal
              { Type_ := "deselection", UserID := "u1",
                LandmarkKey := trimSpace " tree-42 ", Color := "#AABBCC" }).map
            (fun p => Action.submit { sender := 0, payload := p })).toList :=
  deselect_handling sampleEnv 0 sampleClient 5
    { Type_ := "deselect", UserID := "", LandmarkKey := " tree-42 " } (by decide)

/-- C9 as stated fails: the client sent the landmarkKey ` tree-42 ` with a space on each
side; the deselection submitted carries `tree-42`, and not what the client sent. -/
theorem deselect_key_trimmed :
    handleMessage sampleEnv 0 sampleClient 5
        { Type_ := "deselect", UserID := "", LandmarkKey := " tree-42 " }
      = [Action.store (.hdel "kv:users:u1" "landmarkKey"),
         Action.store (.hset "kv:users:u1" [("lastUpdated", .int 5)]),
         Action.submit
           { sender := 0,
             payload := barEncode { Type_ := "deselection", UserID := "u1",
                                    LandmarkKey := "tree-42", Color := "#AABBCC" } }] ∧
    (deselectionOut sampleClient (trimSpace " tree-42 ")).LandmarkKey ≠ " tree-42 " ∧
    barEncode { Type_ := "deselection", UserID := "u1",
                LandmarkKey := "tree-42", Color := "#AABBCC" }
      ≠ barEncode { Type_ := "deselection", UserID := "u1",
                    LandmarkKey := " tree-42 ", Color := "#AABBCC" } := by
  decide

/-- C6 as amended, at `sampleStore`. -/
theorem snapshot_completeness_witness :
    ∃ snap, snapshotMessage sampleStore = some snap ∧ snap.Type_ = "snapshot" ∧
      snap.Selections
        = (["u1", "u2"].filter (fun m =>
              decide (trimSpace (mapGet
                (if m = "u1" then [("color", "#AABBCC"), ("landmarkKey", "tree-42")]
                 else [("color", "#112233"), ("landmarkKey", " ")]) "landmarkKey") ≠ "") &&
              decide (trimSpace (mapGet
                (if m = "u1" then [("color", "#AABBCC"), ("landmarkKey", "tree-42")]
                 else [("color", "#112233"), ("landmarkKey", " ")]) "color") ≠ ""))).map
            (fun m => { UserID := m,
                        LandmarkKey := trimSpace (mapGet
                          (if m = "u1" then [("color", "#AABBCC"), ("landmarkKey", "tree-42")]
                           else [("color", "#112233"), ("landmarkKey", " ")]) "landmarkKey"),
                        Color := trimSpace (mapGet
                          (if m = "u1" then [("color", "#AABBCC"), ("landmarkKey", "tree-42")]
                           else [("color", "#112233"), ("landmarkKey", " ")]) "color") }) ∧
      ∀ m, (snap.Selections.filter (fun e => decide (e.UserID = m))).length
        = if m ∈ ["u1", "u2"] ∧
              trimSpace (mapGet
                (if m = "u1" then [("color", "#AABBCC"), ("landmarkKey", "tree-42")]
                 else [("color", "#112233"), ("landmarkKey", " ")]) "landmarkKey") ≠ "" ∧
              trimSpace (mapGet
                (if m = "u1" then [("color", "#AABBCC"), ("landmarkKey", "tree-42")]
                 else [("color", "#112233"), ("landmarkKey", " ")]) "color") ≠ ""
          then 1 else 0 :=
  snapshot_completeness sampleStore ["u1", "u2"]
    (fun m => if m = "u1" then [("color", "#AABBCC"), ("landmarkKey", "tree-42")]
              else [("color", "#112233"), ("landmarkKey", " ")])
    rfl (by decide) (by decide)

/-- C6 as stated fails: at `sampleStore` every read succeeds and the active-set member
`u2` has a non-empty stored landmarkKey (one space) and a non-empty stored color, yet the
snapshot has no entry for `u2`. -/
theorem snapshot_blank_member :
    sampleStore.smembers = some ["u1", "u2"] ∧
    sampleStore.hgetall (userKey "u2") = some [("color", "#112233"), ("landmarkKey", " ")] ∧
    mapGet [("color", "#112233"), ("landmarkKey", " ")] "landmarkKey" ≠ "" ∧
    mapGet [("color", "#112233"), ("landmarkKey", " ")] "color" ≠ "" ∧
    snapshotMessage sampleStore
      = some { Type_ := "snapshot",
               Selections := [{ UserID := "u1", LandmarkKey := "tree-42",
                                Color := "#AABBCC" }] } := by
  decide

/-- C10 as amended, at `bootState`: connection 1 broadcasts `[8]` before connection 0 is
registered and `[9]` between that registration and the welcome `[1]`; the snapshot is
`[2]`. -/
theorem bootstrap_queue_witness :
    ∃ s0 s1, Hub.run bootState [.broadcast { sender := 1, payload := [8] }] = some s0 ∧
      wsHandlerBootstrap s0 0 (some [1]) (some [2])
        [.broadcast { sender := 1, payload := [9] }] [] = some s1 ∧
      0 ∈ s1.clients ∧
      (s1.heap 0).send =
        { buf := (bootState.heap 0).send.buf
            ++ broadcastPayloads 0 [.broadcast { sender := 1, payload := [9] }]
            ++ (some [1]).toList ++ broadcastPayloads 0 [] ++ (some [2]).toList,
          closed := false } ∧
      ((bootState.heap 0).send.buf = [] →
        broadcastPayloads 0 [.broadcast { sender := 1, payload := [9] }] = [] →
        broadcastPayloads 0 [] = [] →
        (s1.heap 0).send.buf = (some [1]).toList ++ (some [2]).toList) :=
  bootstrap_queue bootState 0 (some [1]) (some [2])
    [.broadcast { sender := 1, payload := [8] }]
    [.broadcast { sender := 1, payload := [9] }] []
    (by decide) (by decide) (by decide) (by decide) (by decide) (by decide) (by decide)

/-- C10 as stated fails: connection 1 is registered, connection 0 registers, the hub takes
a broadcast of connection 1 before the handler of connection 0 sends its welcome `[1]` and
its snapshot `[2]`; the first payload on the queue of connection 0 is the broadcast `[9]`,
the welcome is second and the snapshot third. -/
theorem welcome_not_first :
    (wsHandlerBootstrap bootState 0 (some [1]) (some [2])
        [.broadcast { sender := 1, payload := [9] }] []).map
      (fun s => (s.heap 0).send.buf) = some [[9], [1], [2]] ∧
    (wsHandlerBootstrap bootState 0 (some [1]) (some [2])
        [.broadcast { sender := 1, payload := [9] }] []).map
      (fun s => (s.heap 0).send.buf.head?) ≠ some (some [1]) := by
  decide

end KvWsRelay
